import Mathlib

/-!
Verification of the DistributedImagingServices extractor stage.

Shallow embedding of the repository's binary codec
(src/common/Serialization.cpp), the extractor stage threads
(src/extractor/main.cpp) and the SafeQueue handoff primitive.

Modelling conventions:
* A byte is `Fin 256`; a byte buffer (`std::vector<char>` or
  `std::vector<uchar>`) is a `List Byte`.
* `cv::KeyPoint` holds five 32-bit floats and two 32-bit ints.  The codec
  only ever `memcpy`s their 4-byte object representations, so each field is
  modelled by its 32-bit bit pattern (`Fin (2^32)`); serialization lays the
  pattern out in (little-endian) byte order exactly as `memcpy` does on the
  target, and the round-trip facts are independent of the chosen endianness.
* Filenames travel as raw bytes end to end, so they are modelled as byte
  lists.
-/

abbrev Byte := Fin 256

abbrev Word32 := Fin 4294967296

/-- Byte `i` (0-based, memory order) of the 4-byte object representation of
a 32-bit field. -/
def wbyte (w : Word32) (i : Nat) : Byte :=
  ⟨w.val / 256 ^ i % 256, Nat.mod_lt _ (by norm_num)⟩

/-- The `memcpy` of one 4-byte field into the buffer: the four bytes of the
32-bit pattern in memory order. -/
def bytesOfWord32 (w : Word32) : List Byte :=
  [wbyte w 0, wbyte w 1, wbyte w 2, wbyte w 3]

/-- The `memcpy` of four buffer bytes back into a 4-byte field. -/
def word32OfBytes (b0 b1 b2 b3 : Byte) : Word32 :=
  ⟨b0.val + 256 * b1.val + 65536 * b2.val + 16777216 * b3.val, by
    have h0 := b0.isLt; have h1 := b1.isLt; have h2 := b2.isLt; have h3 := b3.isLt
    omega⟩

/-- `cv::KeyPoint` as the codec sees it: the bit patterns of `pt.x`, `pt.y`,
`size`, `angle`, `response` (floats) and `octave`, `class_id` (ints). -/
structure KeyPoint where
  x : Word32
  y : Word32
  size : Word32
  angle : Word32
  response : Word32
  octave : Word32
  class_id : Word32
deriving DecidableEq, Repr

/-- `SIZEOF_SERIALIZED_KEYPOINT = 5 * sizeof(float) + 2 * sizeof(int)`. -/
def SIZEOF_SERIALIZED_KEYPOINT : Nat := 5 * 4 + 2 * 4

/-- One iteration of the serializing loop: the seven `memcpy`s of
`serialize_keypoints`, in source order. -/
def serializeKeyPoint (kp : KeyPoint) : List Byte :=
  bytesOfWord32 kp.x ++ bytesOfWord32 kp.y ++ bytesOfWord32 kp.size ++
  bytesOfWord32 kp.angle ++ bytesOfWord32 kp.response ++
  bytesOfWord32 kp.octave ++ bytesOfWord32 kp.class_id

/-- `serialize_keypoints` (Serialization.cpp:9-40): writes each keypoint's
seven fields one after another; the buffer is exactly the concatenation of
the per-record encodings, in input order. -/
def serialize_keypoints : List KeyPoint → List Byte
  | [] => []
  | kp :: rest => serializeKeyPoint kp ++ serialize_keypoints rest

/-- The reading loop of `deserialize_keypoints`: consumes 28 bytes per
record, rebuilding the seven fields in the order they were written.  (The
C++ loop advances a pointer over the buffer; consuming the list front for
each field is the same sequential access.) -/
def deserializeRecords : List Byte → List KeyPoint
  | a0 :: a1 :: a2 :: a3 :: b0 :: b1 :: b2 :: b3 ::
    c0 :: c1 :: c2 :: c3 :: d0 :: d1 :: d2 :: d3 ::
    e0 :: e1 :: e2 :: e3 :: f0 :: f1 :: f2 :: f3 ::
    g0 :: g1 :: g2 :: g3 :: rest =>
      { x := word32OfBytes a0 a1 a2 a3
        y := word32OfBytes b0 b1 b2 b3
        size := word32OfBytes c0 c1 c2 c3
        angle := word32OfBytes d0 d1 d2 d3
        response := word32OfBytes e0 e1 e2 e3
        octave := word32OfBytes f0 f1 f2 f3
        class_id := word32OfBytes g0 g1 g2 g3 } :: deserializeRecords rest
  | _ => []

/-- `deserialize_keypoints` (Serialization.cpp:42-76): throws
`std::runtime_error` when the buffer size is not a multiple of the record
size, otherwise reads back `size / 28` records. -/
def deserialize_keypoints (data : List Byte) : Except String (List KeyPoint) :=
  if data.length % SIZEOF_SERIALIZED_KEYPOINT ≠ 0 then
    .error "Invalid data size for keypoint deserialization."
  else
    .ok (deserializeRecords data)

example : SIZEOF_SERIALIZED_KEYPOINT = 28 := by decide

example :
    deserialize_keypoints
      (serialize_keypoints [⟨1, 2, 3, 4, 5, 6, 7⟩, ⟨1000, 70000, 4294967295, 0, 9, 16777216, 256⟩]) =
    .ok [⟨1, 2, 3, 4, 5, 6, 7⟩, ⟨1000, 70000, 4294967295, 0, 9, 16777216, 256⟩] := by
  rfl

example : deserialize_keypoints [⟨0, by norm_num⟩] =
    .error "Invalid data size for keypoint deserialization." := by rfl

/-! ## Codec round-trip lemmas -/

theorem word32OfBytes_wbyte (w : Word32) :
    word32OfBytes (wbyte w 0) (wbyte w 1) (wbyte w 2) (wbyte w 3) = w := by
  apply Fin.ext
  have hw := w.isLt
  simp only [word32OfBytes, wbyte]
  norm_num
  omega

theorem bytesOfWord32_word32OfBytes (b0 b1 b2 b3 : Byte) :
    bytesOfWord32 (word32OfBytes b0 b1 b2 b3) = [b0, b1, b2, b3] := by
  have h0 := b0.isLt; have h1 := b1.isLt; have h2 := b2.isLt; have h3 := b3.isLt
  simp only [bytesOfWord32, wbyte, word32OfBytes, List.cons.injEq, and_true]
  norm_num
  refine ⟨Fin.ext ?_, Fin.ext ?_, Fin.ext ?_, Fin.ext ?_⟩ <;> simp <;> omega

theorem serializeKeyPoint_length (kp : KeyPoint) :
    (serializeKeyPoint kp).length = 28 := by
  simp [serializeKeyPoint, bytesOfWord32]

theorem serialize_keypoints_length (kps : List KeyPoint) :
    (serialize_keypoints kps).length = 28 * kps.length := by
  induction kps with
  | nil => simp [serialize_keypoints]
  | cons kp rest ih =>
      simp [serialize_keypoints, serializeKeyPoint_length, ih]
      ring

theorem deserializeRecords_serializeKeyPoint (kp : KeyPoint) (rest : List Byte) :
    deserializeRecords (serializeKeyPoint kp ++ rest) = kp :: deserializeRecords rest := by
  simp only [serializeKeyPoint, bytesOfWord32, List.cons_append, List.nil_append,
    deserializeRecords, word32OfBytes_wbyte]
  rfl

theorem deserializeRecords_serialize (kps : List KeyPoint) :
    deserializeRecords (serialize_keypoints kps) = kps := by
  induction kps with
  | nil => rfl
  | cons kp rest ih =>
      simp [serialize_keypoints, deserializeRecords_serializeKeyPoint, ih]

theorem exists_cons_of_ne_nil {α : Type} (l : List α) (h : l ≠ []) :
    ∃ a t, l = a :: t := by
  cases l with
  | nil => exact absurd rfl h
  | cons a t => exact ⟨a, t, rfl⟩

theorem serialize_deserializeRecords (data : List Byte) :
    data.length % 28 = 0 → serialize_keypoints (deserializeRecords data) = data := by
  induction data using deserializeRecords.induct with
  | case1 a0 a1 a2 a3 b0 b1 b2 b3 c0 c1 c2 c3 d0 d1 d2 d3 e0 e1 e2 e3 f0 f1 f2 f3 g0 g1 g2 g3 rest ih =>
    intro hlen
    have hrest : rest.length % 28 = 0 := by
      simp only [List.length_cons] at hlen; omega
    simp only [deserializeRecords, serialize_keypoints, serializeKeyPoint,
      bytesOfWord32_word32OfBytes, ih hrest, List.cons_append, List.nil_append,
      List.append_assoc]
  | case2 t h =>
    intro hlen
    rcases t with _ | ⟨v0, _ | ⟨v1, _ | ⟨v2, _ | ⟨v3, _ | ⟨v4, _ | ⟨v5, _ | ⟨v6, _ | ⟨v7, _ | ⟨v8, _ | ⟨v9, _ | ⟨v10, _ | ⟨v11, _ | ⟨v12, _ | ⟨v13, _ | ⟨v14, _ | ⟨v15, _ | ⟨v16, _ | ⟨v17, _ | ⟨v18, _ | ⟨v19, _ | ⟨v20, _ | ⟨v21, _ | ⟨v22, _ | ⟨v23, _ | ⟨v24, _ | ⟨v25, _ | ⟨v26, _ | ⟨v27, rest⟩⟩⟩⟩⟩⟩⟩⟩⟩⟩⟩⟩⟩⟩⟩⟩⟩⟩⟩⟩⟩⟩⟩⟩⟩⟩⟩⟩
    all_goals first
      | rfl
      | (simp only [List.length_cons, List.length_nil] at hlen; omega)
      | exact (h v0 v1 v2 v3 v4 v5 v6 v7 v8 v9 v10 v11 v12 v13 v14 v15 v16 v17 v18 v19 v20 v21 v22 v23 v24 v25 v26 v27 rest rfl).elim

theorem deserializeRecords_length (data : List Byte) (h : data.length % 28 = 0) :
    (deserializeRecords data).length = data.length / 28 := by
  have hs := serialize_deserializeRecords data h
  have hl := serialize_keypoints_length (deserializeRecords data)
  rw [hs] at hl
  omega

/-! ## Claim theorems for the codec -/

/-- Claim C1: for every finite sequence of feature records,
`deserialize_keypoints (serialize_keypoints x) = x`: encoding then decoding
reconstructs exactly the same sequence, every field of every record equal
to the original. -/
theorem deserialize_serialize_roundtrip (kps : List KeyPoint) :
    deserialize_keypoints (serialize_keypoints kps) = Except.ok kps := by
  have h : (serialize_keypoints kps).length % SIZEOF_SERIALIZED_KEYPOINT = 0 := by
    rw [serialize_keypoints_length]
    simp [SIZEOF_SERIALIZED_KEYPOINT]
  simp [deserialize_keypoints, h, deserializeRecords_serialize]

/-- Claim C5: `deserialize_keypoints b` fails with the invalid-encoding
error exactly when `b.length % 28 ≠ 0`; when the length is a multiple of 28
it succeeds with exactly `b.length / 28` records. -/
theorem deserialize_length_check (b : List Byte) :
    (b.length % 28 ≠ 0 →
      deserialize_keypoints b = Except.error "Invalid data size for keypoint deserialization.") ∧
    (b.length % 28 = 0 →
      ∃ kps, deserialize_keypoints b = Except.ok kps ∧ kps.length = b.length / 28) := by
  constructor
  · intro h
    simp [deserialize_keypoints, SIZEOF_SERIALIZED_KEYPOINT, h]
  · intro h
    refine ⟨deserializeRecords b, ?_, deserializeRecords_length b h⟩
    simp [deserialize_keypoints, SIZEOF_SERIALIZED_KEYPOINT, h]

/-- Concrete witness for Claim C5: a 30-byte buffer is rejected, a 28-byte
buffer decodes to a single record. -/
theorem deserialize_length_check_witness :
    deserialize_keypoints (List.replicate 30 (0 : Byte)) =
      Except.error "Invalid data size for keypoint deserialization." ∧
    ∃ kps, deserialize_keypoints (List.replicate 28 (0 : Byte)) = Except.ok kps ∧
      kps.length = 1 := by
  refine ⟨(deserialize_length_check _).1 (by decide), ?_⟩
  obtain ⟨kps, h1, h2⟩ := (deserialize_length_check (List.replicate 28 (0 : Byte))).2 (by decide)
  exact ⟨kps, h1, by rw [h2]; simp⟩

/-- Claim C6: `serialize_keypoints` yields `28 * len` bytes with the records
laid out in input order as 5 four-byte floats then 2 four-byte ints, each
field 4 bytes, no header or padding; the empty sequence gives the empty
buffer. -/
theorem serialize_keypoints_layout :
    serialize_keypoints [] = [] ∧
    (∀ kps : List KeyPoint, (serialize_keypoints kps).length = 28 * kps.length) ∧
    (∀ (kp : KeyPoint) (rest : List KeyPoint), serialize_keypoints (kp :: rest) =
      (bytesOfWord32 kp.x ++ bytesOfWord32 kp.y ++ bytesOfWord32 kp.size ++
       bytesOfWord32 kp.angle ++ bytesOfWord32 kp.response ++
       bytesOfWord32 kp.octave ++ bytesOfWord32 kp.class_id) ++ serialize_keypoints rest) ∧
    (∀ w : Word32, (bytesOfWord32 w).length = 4) :=
  ⟨rfl, serialize_keypoints_length, fun _ _ => rfl, fun _ => rfl⟩

/-- Claim C9: decoding a buffer whose length is a multiple of 28 and
re-encoding the result reproduces the buffer byte for byte. -/
theorem serialize_deserialize_roundtrip (b : List Byte) (h : b.length % 28 = 0) :
    ∃ kps, deserialize_keypoints b = Except.ok kps ∧ serialize_keypoints kps = b := by
  refine ⟨deserializeRecords b, ?_, serialize_deserializeRecords b h⟩
  simp [deserialize_keypoints, SIZEOF_SERIALIZED_KEYPOINT, h]

/-- Concrete witness for Claim C9 at a 28-byte buffer. -/
theorem serialize_deserialize_roundtrip_witness :
    (List.replicate 28 (1 : Byte)).length % 28 = 0 ∧
    ∃ kps, deserialize_keypoints (List.replicate 28 (1 : Byte)) = Except.ok kps ∧
      serialize_keypoints kps = List.replicate 28 (1 : Byte) :=
  ⟨by decide, serialize_deserialize_roundtrip _ (by decide)⟩

/-- Claim C10: serialization is a homomorphism from sequence concatenation
to byte-buffer concatenation. -/
theorem serialize_keypoints_append (xs ys : List KeyPoint) :
    serialize_keypoints (xs ++ ys) = serialize_keypoints xs ++ serialize_keypoints ys := by
  induction xs with
  | nil => rfl
  | cons kp rest ih => simp [serialize_keypoints, ih]

/-! ## Extractor stage (src/extractor/main.cpp)

The transport and OpenCV calls are external capabilities; the control flow
of the three thread functions is embedded over finite prefixes of the item
streams they consume. -/

/-- One part of a multi-part transport message, as raw bytes. -/
abbrev Frame := List Byte

/-- `ImageTask` (main.cpp:38-41): one work item from the generator.  The
filename is carried as its raw bytes. -/
structure ImageTask where
  filename : Frame
  img_buffer : List Byte
deriving DecidableEq, Repr

/-- `ProcessedTask` (main.cpp:44-48): one finished result. -/
structure ProcessedTask where
  filename : Frame
  img_buffer : List Byte
  keypoints_buffer : List Byte
deriving DecidableEq, Repr

/-- The log lines the extractor threads write, by shape (main.cpp:63, 86-88,
91): decode failure with worker id and filename, success with worker id,
filename and keypoint count, and the worker-boundary error with worker id. -/
inductive LogEvent where
  | decodeFailed (workerId : Nat) (filename : Frame)
  | processed (workerId : Nat) (filename : Frame) (numKeypoints : Nat)
  | workerError (workerId : Nat)
deriving DecidableEq, Repr

/-- Outcome of the externally supplied processing of one item (steps 2-4 of
the worker loop): `cv::imdecode` yields an empty image (main.cpp:62), the
decode/detect pipeline succeeds with some keypoints, or an unhandled
exception is raised anywhere in those steps. -/
inductive ItemOutcome where
  | success (kps : List KeyPoint)
  | decodeFailure
  | exception
deriving DecidableEq, Repr

/-- `worker_thread` (main.cpp:51-93) applied to the finite prefix of items
the worker pops.  The `try { while (work_queue.pop(task)) { ... } } catch`
block wraps the WHOLE loop, so: a successful item pushes
`ProcessedTask{filename, img_buffer, serialize_keypoints kps}` and the loop
continues; an empty decode logs and `continue`s; an exception escapes the
loop, is caught once at the thread boundary where it is logged with the
worker's id, and the thread function returns.  Result: the pushed results,
the log events, and whether the worker is still running (still inside its
loop) afterwards. -/
def worker_run (id : Nat) (proc : ImageTask → ItemOutcome) :
    List ImageTask → List ProcessedTask × List LogEvent × Bool
  | [] => ([], [], true)
  | t :: rest =>
    match proc t with
    | .success kps =>
        let r : ProcessedTask :=
          { filename := t.filename, img_buffer := t.img_buffer,
            keypoints_buffer := serialize_keypoints kps }
        let out := worker_run id proc rest
        (r :: out.1, .processed id t.filename kps.length :: out.2.1, out.2.2)
    | .decodeFailure =>
        let out := worker_run id proc rest
        (out.1, .decodeFailed id t.filename :: out.2.1, out.2.2)
    | .exception => ([], [.workerError id], false)

/-- ZMQ send flags as used by the sender (main.cpp:125-127): `sndmore`
marks that more frames of this message follow; `none` ends the message. -/
inductive SendFlag where
  | sndmore
  | none
deriving DecidableEq, Repr

/-- One iteration of the sender loop (main.cpp:112-127): the three
`publisher.send` calls for one popped `ProcessedTask`, in program order. -/
def sender_emit (r : ProcessedTask) : List (Frame × SendFlag) :=
  [(r.filename, SendFlag.sndmore), (r.img_buffer, SendFlag.sndmore),
   (r.keypoints_buffer, SendFlag.none)]

/-- The sender loop over the finite prefix of results it pops: each item's
frames are emitted completely before the next item is popped. -/
def sender_run : List ProcessedTask → List (Frame × SendFlag)
  | [] => []
  | r :: rest => sender_emit r ++ sender_run rest

/-- One iteration of the main receive loop (main.cpp:177-213), applied to
the frames of one delivered inbound message: part 1 received; if `rcvmore`
is false the message had 1 frame — log and `continue`; part 2 received; if
`rcvmore` is still true the message had more than 2 frames — flush the
extras and `continue`; otherwise push `ImageTask{filename, payload}`.
Returns the WorkItems pushed for this message. -/
def ingress_process (frames : List Frame) : List ImageTask :=
  match frames with
  | [] => []
  | [_] => []
  | [name, img] => [{ filename := name, img_buffer := img }]
  | _ :: _ :: _ :: _ => []

/-- The receive loop over a sequence of delivered inbound messages: the
loop continues after every message, well-formed or not. -/
def ingress_run : List (List Frame) → List ImageTask
  | [] => []
  | m :: ms => ingress_process m ++ ingress_run ms

/-! ## Claim theorems for the extractor stage -/

/-- Processing that raises an exception on the empty-named item and
succeeds on every other item. -/
def procExnOnEmptyName : ImageTask → ItemOutcome :=
  fun t => if t.filename = [] then ItemOutcome.exception else ItemOutcome.success []

/-- Counterexample to Claim C2: with a first item that raises and a good
second item behind it, the worker emits no result at all and is no longer
running — the exception is caught OUTSIDE the loop (main.cpp:55,90), so the
subsequent good item is never processed, while that good item alone would
produce a result.  This refutes "resumes its loop to process subsequent
items; a single bad item never terminates the worker thread". -/
theorem worker_exception_kills_worker :
    worker_run 0 procExnOnEmptyName
        [{ filename := [], img_buffer := [] }, { filename := [1], img_buffer := [] }] =
      ([], [LogEvent.workerError 0], false) ∧
    worker_run 0 procExnOnEmptyName [{ filename := [1], img_buffer := [] }] =
      ([{ filename := [1], img_buffer := [], keypoints_buffer := [] }],
       [LogEvent.processed 0 [1] 0], true) := by
  constructor <;> rfl

/-- Claim C2 (amended): an unhandled exception from steps 2-4 escapes the
per-item loop, is caught once at the worker-thread boundary, logged with
the worker's identity, and the worker thread terminates without processing
any subsequent item. -/
theorem worker_exception_terminates (id : Nat) (proc : ImageTask → ItemOutcome)
    (t : ImageTask) (rest : List ImageTask) (h : proc t = ItemOutcome.exception) :
    worker_run id proc (t :: rest) = ([], [LogEvent.workerError id], false) := by
  simp [worker_run, h]

/-- Concrete witness for the amended Claim C2. -/
theorem worker_exception_terminates_witness :
    (fun _ : ImageTask => ItemOutcome.exception) { filename := [], img_buffer := [] } =
      ItemOutcome.exception ∧
    worker_run 3 (fun _ => ItemOutcome.exception)
        [{ filename := [], img_buffer := [] }, { filename := [2], img_buffer := [7] }] =
      ([], [LogEvent.workerError 3], false) :=
  ⟨rfl, worker_exception_terminates 3 _ _ [{ filename := [2], img_buffer := [7] }] rfl⟩

/-- Claim C7: an item whose payload decodes to an empty image is logged
with the worker's identity and filename, produces no result, and the
worker continues with the remaining items exactly as if the bad item had
not been there. -/
theorem worker_decode_failure_continues (id : Nat) (proc : ImageTask → ItemOutcome)
    (t : ImageTask) (rest : List ImageTask) (h : proc t = ItemOutcome.decodeFailure) :
    worker_run id proc (t :: rest) =
      ((worker_run id proc rest).1,
       LogEvent.decodeFailed id t.filename :: (worker_run id proc rest).2.1,
       (worker_run id proc rest).2.2) := by
  simp [worker_run, h]

/-- Processing that fails to decode the empty-named item and succeeds on
every other item. -/
def procDecodeFailOnEmptyName : ImageTask → ItemOutcome :=
  fun t => if t.filename = [] then ItemOutcome.decodeFailure else ItemOutcome.success []

/-- Concrete witness for Claim C7: a corrupt first item is skipped and the
good second item is still processed. -/
theorem worker_decode_failure_continues_witness :
    procDecodeFailOnEmptyName { filename := [], img_buffer := [5] } =
      ItemOutcome.decodeFailure ∧
    worker_run 1 procDecodeFailOnEmptyName
        [{ filename := [], img_buffer := [5] }, { filename := [4], img_buffer := [6] }] =
      ((worker_run 1 procDecodeFailOnEmptyName [{ filename := [4], img_buffer := [6] }]).1,
       LogEvent.decodeFailed 1 [] ::
         (worker_run 1 procDecodeFailOnEmptyName [{ filename := [4], img_buffer := [6] }]).2.1,
       (worker_run 1 procDecodeFailOnEmptyName [{ filename := [4], img_buffer := [6] }]).2.2) :=
  ⟨rfl, worker_decode_failure_continues 1 _ _ _ rfl⟩

/-- Claim C3: a delivered inbound message yields exactly one
`WorkItem{filename, payload}` when it has exactly two frames; a one-frame
message and a message with three or more frames (whose extra frames the
loop drains) yield zero WorkItems; and the receive loop continues after
every message. -/
theorem ingress_framing (frames : List Frame) :
    (∀ name img, frames = [name, img] →
        ingress_process frames = [{ filename := name, img_buffer := img }]) ∧
    (frames.length ≠ 2 → ingress_process frames = []) ∧
    (∀ ms, ingress_run (frames :: ms) = ingress_process frames ++ ingress_run ms) := by
  refine ⟨?_, ?_, fun ms => rfl⟩
  · rintro name img rfl
    rfl
  · intro h
    rcases frames with _ | ⟨a, _ | ⟨b, _ | ⟨c, t⟩⟩⟩
    · rfl
    · rfl
    · simp at h
    · rfl

/-- Concrete witness for Claim C3: a two-frame message produces its
WorkItem; one-frame and three-frame messages produce none. -/
theorem ingress_framing_witness :
    ingress_process [[1], [2]] = [{ filename := [1], img_buffer := [2] }] ∧
    ingress_process [[1]] = [] ∧
    ingress_process [[1], [2], [3]] = [] :=
  ⟨(ingress_framing [[1], [2]]).1 [1] [2] rfl,
   (ingress_framing [[1]]).2.1 (by decide),
   (ingress_framing [[1], [2], [3]]).2.1 (by decide)⟩

/-- Claim C4: for an item the worker processes successfully, the pushed
result keeps the upstream filename and the upstream image payload
byte-for-byte, and the sender emits for it exactly three frames in order —
filename with `sndmore`, image payload with `sndmore`, feature buffer with
the end-of-message flag — before any frame of the next item. -/
theorem sender_three_frames (id : Nat) (proc : ImageTask → ItemOutcome)
    (t : ImageTask) (rest : List ImageTask) (kps : List KeyPoint)
    (h : proc t = ItemOutcome.success kps) :
    ∃ r rs, (worker_run id proc (t :: rest)).1 = r :: rs ∧
      r.filename = t.filename ∧
      r.img_buffer = t.img_buffer ∧
      sender_run (r :: rs) =
        (t.filename, SendFlag.sndmore) :: (t.img_buffer, SendFlag.sndmore) ::
        (r.keypoints_buffer, SendFlag.none) :: sender_run rs := by
  refine ⟨{ filename := t.filename, img_buffer := t.img_buffer,
            keypoints_buffer := serialize_keypoints kps },
          (worker_run id proc rest).1, ?_, rfl, rfl, rfl⟩
  simp [worker_run, h]

/-- Concrete witness for Claim C4. -/
theorem sender_three_frames_witness :
    (fun _ : ImageTask => ItemOutcome.success []) { filename := [9], img_buffer := [8, 8] } =
      ItemOutcome.success [] ∧
    ∃ r rs,
      (worker_run 0 (fun _ => ItemOutcome.success [])
          [{ filename := [9], img_buffer := [8, 8] }]).1 = r :: rs ∧
      r.filename = ({ filename := [9], img_buffer := [8, 8] } : ImageTask).filename ∧
      r.img_buffer = ({ filename := [9], img_buffer := [8, 8] } : ImageTask).img_buffer ∧
      sender_run (r :: rs) =
        ([9], SendFlag.sndmore) :: ([8, 8], SendFlag.sndmore) ::
        (r.keypoints_buffer, SendFlag.none) :: sender_run rs :=
  ⟨rfl, sender_three_frames 0 (fun _ => ItemOutcome.success [])
    { filename := [9], img_buffer := [8, 8] } [] [] rfl⟩

/-! ## SafeQueue (SafeQueue.hpp)

Both `push` and `pop` run their entire bodies under `mutex_`, so any
concurrent execution is equivalent to one linearized sequence of atomic
operations.  `pop` waits on `cond_` for the queue to be non-empty, so its
linearization point only occurs on a non-empty queue — a trace in which a
pop fires on an empty queue is not admissible (that pop is still blocked).
Each queue entry is paired with the ghost id of the producer thread that
pushed it; the real queue stores only the value. -/

/-- A linearized SafeQueue operation: a push by producer thread `p`, or a
(completed) blocking pop by some consumer. -/
inductive QueueOp (α : Type) where
  | push (p : Nat) (x : α)
  | pop
deriving DecidableEq, Repr

/-- A trace is admissible from queue state `q` when every pop's
linearization point occurs on a non-empty queue (`cond_.wait` guarantees
this: a pop on an empty queue stays blocked until a push happens). -/
def admissibleFrom {α : Type} : List (Nat × α) → List (QueueOp α) → Bool
  | _, [] => true
  | q, .push p x :: ops => admissibleFrom (q ++ [(p, x)]) ops
  | [], .pop :: _ => false
  | _ :: q, .pop :: ops => admissibleFrom q ops

/-- Executes a linearized trace against the queue: `push` appends at the
tail (`queue_.push`), `pop` removes the head (`queue_.front` then
`queue_.pop`).  Returns the final queue contents and the popped items in
pop order. -/
def runQueue {α : Type} : List (Nat × α) → List (QueueOp α) → List (Nat × α) × List (Nat × α)
  | q, [] => (q, [])
  | q, .push p x :: ops => runQueue (q ++ [(p, x)]) ops
  | [], .pop :: ops => runQueue [] ops
  | e :: q, .pop :: ops =>
      let out := runQueue q ops
      (out.1, e :: out.2)

/-- The items pushed by a trace, in push order, with their producer ids. -/
def pushedList {α : Type} : List (QueueOp α) → List (Nat × α)
  | [] => []
  | .push p x :: ops => (p, x) :: pushedList ops
  | .pop :: ops => pushedList ops

/-- The number of pop operations in a trace. -/
def popCount {α : Type} : List (QueueOp α) → Nat
  | [] => 0
  | .push _ _ :: ops => popCount ops
  | .pop :: ops => popCount ops + 1

theorem runQueue_spec {α : Type} (ops : List (QueueOp α)) :
    ∀ q : List (Nat × α), admissibleFrom q ops = true →
      runQueue q ops = ((q ++ pushedList ops).drop (popCount ops),
                        (q ++ pushedList ops).take (popCount ops)) := by
  induction ops with
  | nil =>
      intro q _
      simp [runQueue, pushedList, popCount]
  | cons op ops ih =>
      intro q hadm
      cases op with
      | push p x =>
          simp only [admissibleFrom] at hadm
          simp only [runQueue, pushedList, popCount, ih _ hadm]
          simp [List.append_assoc]
      | pop =>
          cases q with
          | nil => simp [admissibleFrom] at hadm
          | cons e q' =>
              simp only [admissibleFrom] at hadm
              simp only [runQueue, pushedList, popCount, ih _ hadm]
              simp [List.drop_succ_cons, List.take_succ_cons]

theorem popCount_le_pushed {α : Type} (ops : List (QueueOp α)) :
    ∀ q : List (Nat × α), admissibleFrom q ops = true →
      popCount ops ≤ q.length + (pushedList ops).length := by
  induction ops with
  | nil =>
      intro q _
      simp [popCount]
  | cons op ops ih =>
      intro q hadm
      cases op with
      | push p x =>
          simp only [admissibleFrom] at hadm
          have h := ih _ hadm
          simp only [popCount, pushedList, List.length_append, List.length_cons, List.length_nil] at h ⊢
          omega
      | pop =>
          cases q with
          | nil => simp [admissibleFrom] at hadm
          | cons e q' =>
              simp only [admissibleFrom] at hadm
              have h := ih _ hadm
              simp only [popCount, pushedList, List.length_cons] at h ⊢
              omega

/-- Claim C8: in any admissible linearized trace starting from an empty
SafeQueue, the popped items are exactly the first `popCount` pushed items
in push order — every scheduled pop succeeds with an item, popped and
still-queued items together are exactly the pushed items (no duplication,
no loss), FIFO order holds per producer (and globally), and a trace cannot
begin with a pop on the empty queue (such a pop stays blocked until a
push). -/
theorem safeQueue_exactly_once {α : Type} (ops : List (QueueOp α))
    (h : admissibleFrom [] ops = true) :
    (runQueue [] ops).2 = (pushedList ops).take (popCount ops) ∧
    (runQueue [] ops).1 = (pushedList ops).drop (popCount ops) ∧
    (runQueue [] ops).2.length = popCount ops ∧
    (runQueue [] ops).2 ++ (runQueue [] ops).1 = pushedList ops ∧
    (∀ p : Nat, (runQueue [] ops).2.filter (fun e => e.1 == p) ++
        (runQueue [] ops).1.filter (fun e => e.1 == p) =
        (pushedList ops).filter (fun e => e.1 == p)) ∧
    admissibleFrom ([] : List (Nat × α)) (QueueOp.pop :: ops) = false := by
  have hs := runQueue_spec ops [] h
  have hc := popCount_le_pushed ops [] h
  simp only [List.nil_append] at hs
  simp only [List.length_nil, Nat.zero_add] at hc
  refine ⟨?_, ?_, ?_, ?_, ?_, rfl⟩
  · rw [hs]
  · rw [hs]
  · rw [hs]
    simp only [List.length_take]
    omega
  · rw [hs]
    simp [List.take_append_drop]
  · intro p
    rw [hs]
    simp only
    rw [← List.filter_append, List.take_append_drop]

/-- A concrete interleaving: two producers, three pushes, three pops. -/
def demoOps : List (QueueOp Nat) :=
  [.push 0 10, .push 1 20, .pop, .push 0 30, .pop, .pop]

/-- Concrete witness for Claim C8 on a two-producer trace. -/
theorem safeQueue_exactly_once_witness :
    (runQueue [] demoOps).2 = (pushedList demoOps).take (popCount demoOps) ∧
    (runQueue [] demoOps).1 = (pushedList demoOps).drop (popCount demoOps) ∧
    (runQueue [] demoOps).2.length = popCount demoOps ∧
    (runQueue [] demoOps).2 ++ (runQueue [] demoOps).1 = pushedList demoOps ∧
    (∀ p : Nat, (runQueue [] demoOps).2.filter (fun e => e.1 == p) ++
        (runQueue [] demoOps).1.filter (fun e => e.1 == p) =
        (pushedList demoOps).filter (fun e => e.1 == p)) ∧
    admissibleFrom ([] : List (Nat × Nat)) (QueueOp.pop :: demoOps) = false :=
  safeQueue_exactly_once demoOps (by decide)
